import Mathlib

/-!
Verification of the S3 PDF extractor (`streamlit_app.py`).

Shallow embedding conventions:
* Python strings are modelled as `List Char` (`Str`); `str.lower()` is
  `lower`, `str.strip()` is `trim`, the `in` substring test is `containsSub`,
  `str.endswith` is `List.isSuffixOf` on lowered strings, and
  `key.split('/')[-1]` is `lastSeg` (via `splitSlash`).
* S3 listing results are a flat `List S3Obj`; the pagination adapter and its
  possible failure are modelled by passing `Except Unit (List S3Obj)`:
  `.error` stands for the `ClientError` raised while enumerating pages.
* The `st.error(...); return ...` idiom by which a Python function surfaces a
  failure and aborts is modelled by returning `Except SearchErr ...`.
* Python `float` division by `1024.0` is exact for the integer byte counts
  involved, so `format_file_size` is modelled over `ℚ`; the `"{:.1f}"`
  formatting is correctly-rounded half-to-even, modelled by `fmt1`.
* The `re` pattern engine (an external library) is modelled by a small
  regular-expression type `Regex` with Brzozowski-derivative matching;
  `re.IGNORECASE` is the case-folding character rule, `re.compile` is the
  fragment parser `compileRegex` (returning `none` for syntax errors such as
  a dangling `*` or trailing backslash), and `regex.search` is the
  unanchored `searchB`.
* The `zipfile` archive (external library) is modelled as the list of its
  entries, each carrying a name, the deflate method marker `8`, and bytes.
-/

/-- Python strings, modelled as lists of characters. -/
abbrev Str := List Char

/-- `str.lower()`. -/
def lower (s : Str) : Str := s.map Char.toLower

/-- `str.strip()`: drop whitespace from both ends. -/
def trim (s : Str) : Str :=
  ((s.dropWhile Char.isWhitespace).reverse.dropWhile Char.isWhitespace).reverse

/-- Python's `needle in hay` substring test. -/
def containsSub (hay needle : Str) : Bool :=
  hay.tails.any needle.isPrefixOf

/-- `key.split('/')` (Python `str.split` on a single-character separator):
always returns a non-empty list of segments. -/
def splitSlash : Str → List Str
  | [] => [[]]
  | c :: cs =>
    match splitSlash cs with
    | [] => [[]]
    | w :: ws => if c = '/' then [] :: w :: ws else (c :: w) :: ws

/-- `key.split('/')[-1]`: the basename. `splitSlash` is never empty, so the
Python `[-1]` index is total; the default of `getLastD` is never used. -/
def lastSeg (s : Str) : Str := (splitSlash s).getLastD []

/-- Is this character different from the path separator? -/
def notSlash (c : Char) : Bool := c != '/'

/-- The characters of the key after its last `'/'` (the whole key when no
`'/'` occurs) — the spec's description of `fileName`. -/
def afterLastSlash (s : Str) : Str :=
  (s.reverse.takeWhile notSlash).reverse

/-- Bytes of a downloaded object. -/
abbrev Bytes := List Nat

/-- One object of the bucket listing: `{Key, Size, LastModified}`. -/
structure S3Obj where
  Key : Str
  Size : Nat
  LastModified : Nat
  deriving DecidableEq, Repr

/-- The record built for each qualifying PDF object
(`{'Key','FileName','Size','LastModified','SizeFormatted'}`). -/
structure Entry where
  Key : Str
  FileName : Str
  Size : Nat
  LastModified : Nat
  SizeFormatted : Str
  deriving DecidableEq, Repr

/-- The bounded scaling loop of `format_file_size`:
`while size_bytes >= 1024 and i < len(size_names) - 1`.  The index `i` is
bounded by 3, so three iterations of fuel are exact. -/
def formatLoopAux : Nat → ℚ → Nat → ℚ × Nat
  | 0, q, i => (q, i)
  | fuel + 1, q, i =>
    if 1024 ≤ q ∧ i < 3 then formatLoopAux fuel (q / 1024) (i + 1) else (q, i)

/-- Python `f"{q:.1f}"` for a nonnegative rational: correctly rounded to one
decimal place, ties to even. -/
def fmt1 (q : ℚ) : Str :=
  let t : ℚ := 10 * q
  let f : ℤ := ⌊t⌋
  let rounded : ℤ :=
    if t - f < 1 / 2 then f
    else if 1 / 2 < t - f then f + 1
    else if f % 2 = 0 then f else f + 1
  let m : Nat := rounded.toNat
  Nat.toDigits 10 (m / 10) ++ ('.' :: Nat.toDigits 10 (m % 10))

/-- `size_names = ["B", "KB", "MB", "GB"]`. -/
def sizeNames : List Str := [['B'], ['K', 'B'], ['M', 'B'], ['G', 'B']]

/-- `format_file_size`: bytes to a human-readable string. -/
def format_file_size (size_bytes : Nat) : Str :=
  if size_bytes = 0 then ['0', 'B']
  else
    let p := formatLoopAux 3 (size_bytes : ℚ) 0
    fmt1 p.1 ++ (' ' :: sizeNames.getD p.2 ['B'])

/-- The catalog record built from one listing object. -/
def mkEntry (o : S3Obj) : Entry :=
  { Key := o.Key
    FileName := lastSeg o.Key
    Size := o.Size
    LastModified := o.LastModified
    SizeFormatted := format_file_size o.Size }

/-- The `.pdf` suffix the code filters on. -/
def pdfSuffix : Str := ['.', 'p', 'd', 'f']

/-- `obj['Key'].lower().endswith('.pdf')`. -/
def isPdfKey (key : Str) : Bool := pdfSuffix.isSuffixOf (lower key)

/-- The catalog common to both search functions: keep the objects whose
lowercased key ends in `.pdf`, normalised into `Entry` records in listing
order (`all_s3_files` in `find_specific_pdfs`). -/
def buildCatalog (objs : List S3Obj) : List Entry :=
  (objs.filter (fun o => isPdfKey o.Key)).map mkEntry

/-- The failure conditions a search surfaces (`st.error` + early return). -/
inductive SearchErr where
  | listingFailed
  | invalidPattern
  deriving DecidableEq, Repr

/-- `find_specific_pdfs`: build the catalog, then for each requested name
(stripped; blanks skipped) extend `found_files` with all case-insensitive
exact `FileName` matches, falling back to case-insensitive substring matches
only when no exact match exists.  A `ClientError` while enumerating the
listing is surfaced and aborts the search. -/
def find_specific_pdfs (listing : Except Unit (List S3Obj))
    (target_files : List Str) : Except SearchErr (List Entry × List Entry) :=
  match listing with
  | .error _ => .error .listingFailed
  | .ok objs =>
    let all_s3_files := buildCatalog objs
    let found_files := target_files.foldl (fun acc t =>
      let t' := trim t
      if t' = [] then acc
      else
        let exact := all_s3_files.filter
          (fun f => lower f.FileName == lower t')
        if exact.isEmpty then
          acc ++ all_s3_files.filter
            (fun f => containsSub (lower f.FileName) (lower t'))
        else acc ++ exact) []
    .ok (found_files, all_s3_files)

/-- Regular expressions of the pattern engine fragment the app relies on:
`.` (any char), literal characters, alternation, concatenation, Kleene star,
plus the empty language needed for derivatives. -/
inductive Regex where
  | emp
  | eps
  | chr (c : Char)
  | dot
  | alt (r s : Regex)
  | cat (r s : Regex)
  | star (r : Regex)
  deriving DecidableEq, Repr

namespace Regex

/-- Does the regex accept the empty string? -/
def nullable : Regex → Bool
  | emp => false
  | eps => true
  | chr _ => false
  | dot => false
  | alt r s => nullable r || nullable s
  | cat r s => nullable r && nullable s
  | star _ => true

/-- Brzozowski derivative with respect to one input character.  The literal
case folds both sides, modelling `re.IGNORECASE` matching. -/
def deriv : Regex → Char → Regex
  | emp, _ => emp
  | eps, _ => emp
  | chr c, a => if c.toLower = a.toLower then eps else emp
  | dot, _ => eps
  | alt r s, a => alt (deriv r a) (deriv s a)
  | cat r s, a =>
    if nullable r then alt (cat (deriv r a) s) (deriv s a)
    else cat (deriv r a) s
  | star r, a => cat (deriv r a) (star r)

/-- Anchored (whole-string) matching. -/
def matchB (r : Regex) (s : Str) : Bool :=
  nullable (s.foldl deriv r)

/-- Does the regex match some prefix of `s`? -/
def prefixB (r : Regex) (s : Str) : Bool :=
  s.inits.any (matchB r)

/-- `regex.search(s)`: unanchored search, true iff the regex matches some
substring of `s`. -/
def searchB (r : Regex) (s : Str) : Bool :=
  s.tails.any (prefixB r)

end Regex

/-- Left-to-right worklist of `re.compile` for the modelled fragment,
accumulating parsed atoms in reverse: `*` turns the latest atom into a star
(failing like Python's "nothing to repeat" when there is none), `.` is the
any-character atom, a backslash makes the following character a literal
(failing like Python on a trailing backslash), and anything else is a
literal character. -/
def compileAux : Str → List Regex → Option (List Regex)
  | [], atoms => some atoms
  | '*' :: rest, atoms =>
    match atoms with
    | [] => none
    | a :: as => compileAux rest (Regex.star a :: as)
  | '.' :: rest, atoms => compileAux rest (Regex.dot :: atoms)
  | '\\' :: rest, atoms =>
    match rest with
    | [] => none
    | c :: rest' => compileAux rest' (Regex.chr c :: atoms)
  | c :: rest, atoms => compileAux rest (Regex.chr c :: atoms)

/-- Concatenate the parsed atoms (accumulated in reverse) in input order. -/
def assembleAtoms (atoms : List Regex) : Regex :=
  match atoms.reverse with
  | [] => Regex.eps
  | a :: rest => rest.foldl Regex.cat a

/-- `re.compile(pattern, re.IGNORECASE)` for the modelled fragment: `none`
is the `re.error` outcome. -/
def compileRegex (pattern : Str) : Option Regex :=
  (compileAux pattern []).map assembleAtoms

/-- `search_by_pattern`: compile the pattern (an `re.error` is surfaced and
no search is performed), then keep every listed object whose lowercased key
ends in `.pdf` and whose full key or basename the pattern matches
(unanchored, case-insensitive); a failure enumerating the listing is also
surfaced.  The pattern is compiled before the listing is consumed. -/
def search_by_pattern (listing : Except Unit (List S3Obj))
    (pattern : Str) : Except SearchErr (List Entry) :=
  match compileRegex pattern with
  | none => .error .invalidPattern
  | some r =>
    match listing with
    | .error _ => .error .listingFailed
    | .ok objs =>
      .ok ((objs.filter (fun o =>
        isPdfKey o.Key &&
          (Regex.searchB r o.Key || Regex.searchB r (lastSeg o.Key)))).map
            mkEntry)

/-- The "Browse All PDFs" branch: reuse the pattern search with the
match-all pattern `".*"` — no separate code path. -/
def browse_all_pdfs (listing : Except Unit (List S3Obj)) :
    Except SearchErr (List Entry) :=
  search_by_pattern listing ['.', '*']

/-- The post-search accounting shown to the user (`found_names`,
`target_names_lower`, `missing_files`): the lowercased requested names minus
the lowercased file names of the matched entries. -/
def missing_files (found_files : List Entry) (target_files : List Str) :
    Finset Str :=
  (target_files.map lower).toFinset \
    (found_files.map (fun f => lower f.FileName)).toFinset

/-- `create_zip_file` writes one archive member per mapping item, named by
the basename of the logical name, with the deflate method (`8`). -/
structure ZipMember where
  name : Str
  method : Nat
  data : Bytes
  deriving DecidableEq, Repr

/-- `create_zip_file(files_data)`: the archive as its member list, in the
mapping's iteration (insertion) order. -/
def create_zip_file (files_data : List (Str × Bytes)) : List ZipMember :=
  files_data.map (fun p => { name := lastSeg p.1, method := 8, data := p.2 })

/-- Python dict assignment `m[k] = v`: replace in place when the key is
present (keeping its original position), else append. -/
def dictInsert (m : List (Str × Bytes)) (k : Str) (v : Bytes) :
    List (Str × Bytes) :=
  if (m.map Prod.fst).contains k then
    m.map (fun p => if p.1 == k then (k, v) else p)
  else m ++ [(k, v)]

/-- The bulk-ZIP loop: iterate the selected entries in order, fetch each
object (`download_file` returns `none` on failure, after reporting it), and
record the bytes of the successful downloads keyed by file name.  The
Python guard `if file_data:` is truthiness, not a `None` test: a successful
download of empty bytes (`b''` is falsy) is skipped as well. -/
def bulk_zip_downloads (selected : List Entry) (fetch : Str → Option Bytes) :
    List (Str × Bytes) :=
  selected.foldl (fun acc e =>
    match fetch e.Key with
    | some d => if d.isEmpty then acc else dictInsert acc e.FileName d
    | none => acc) []

instance {ε α : Type} [DecidableEq ε] [DecidableEq α] :
    DecidableEq (Except ε α) := fun x y =>
  match x, y with
  | .error a, .error b => decidable_of_iff (a = b) (by simp)
  | .ok a, .ok b => decidable_of_iff (a = b) (by simp)
  | .error _, .ok _ => .isFalse (fun h => Except.noConfusion h)
  | .ok _, .error _ => .isFalse (fun h => Except.noConfusion h)

/-- Spec-side: the catalog entries whose file name equals the requested name
case-insensitively. -/
def exactMatches (catalog : List Entry) (t : Str) : List Entry :=
  catalog.filter (fun f => lower f.FileName == lower t)

/-- Spec-side: the catalog entries whose file name contains the requested
name as a case-insensitive substring. -/
def substrMatches (catalog : List Entry) (t : Str) : List Entry :=
  catalog.filter (fun f => containsSub (lower f.FileName) (lower t))

/-- Spec-side: the entries one requested name contributes — all exact
matches when any exist, otherwise all substring matches. -/
def matchOneName (catalog : List Entry) (t : Str) : List Entry :=
  if exactMatches catalog t = [] then substrMatches catalog t
  else exactMatches catalog t

/-- Spec-side: the requested names after trimming, blanks discarded. -/
def cleanNames (ts : List Str) : List Str :=
  (ts.map trim).filter (fun t => !t.isEmpty)

/-- Spec-side: the unit index `format_file_size` scales to — the number of
divisions by 1024, capped at 3 (GB). -/
def sizeIndex (n : Nat) : Nat :=
  if n < 1024 then 0
  else if n < 1024 ^ 2 then 1
  else if n < 1024 ^ 3 then 2
  else 3

/-- Spec-side: the pattern matches some (contiguous) substring of `s`. -/
def SubstrMatch (r : Regex) (s : Str) : Prop :=
  ∃ u v w, s = u ++ v ++ w ∧ Regex.matchB r v = true

/-- Two selected entries whose distinct keys share the basename `x.pdf`. -/
def dupSelA : Entry := ⟨"a/x.pdf".data, "x.pdf".data, 0, 0, ['0', 'B']⟩

/-- See `dupSelA`. -/
def dupSelB : Entry := ⟨"b/x.pdf".data, "x.pdf".data, 0, 0, ['0', 'B']⟩

/-- A retrieval adapter that succeeds on both duplicate-basename keys with
different bytes. -/
def dupFetch : Str → Option Bytes :=
  fun k => if k = "a/x.pdf".data then some [1] else some [2]

/-- Three selected entries with pairwise distinct file names. -/
def selEntryA : Entry := ⟨"p/a.pdf".data, "a.pdf".data, 0, 0, ['0', 'B']⟩

/-- See `selEntryA`. -/
def selEntryB : Entry := ⟨"p/b.pdf".data, "b.pdf".data, 0, 0, ['0', 'B']⟩

/-- See `selEntryA`. -/
def selEntryC : Entry := ⟨"p/c.pdf".data, "c.pdf".data, 0, 0, ['0', 'B']⟩

/-- See `selEntryA`. -/
def selEntryD : Entry := ⟨"p/d.pdf".data, "d.pdf".data, 0, 0, ['0', 'B']⟩

/-- A retrieval adapter that fails on one selected key and returns empty
bytes (a falsy success) on another. -/
def midFailFetch : Str → Option Bytes :=
  fun k => if k = "p/b.pdf".data then none
    else if k = "p/a.pdf".data then some [5]
    else if k = "p/d.pdf".data then some [] else some [6]

theorem takeWhile_all {p : Char → Bool} :
    ∀ l : Str, (∀ a ∈ l, p a = true) → l.takeWhile p = l := by
  intro l h
  induction l with
  | nil => rfl
  | cons c cs ih =>
    rw [List.takeWhile_cons_of_pos (h c (List.mem_cons_self c cs))]
    rw [ih (fun a ha => h a (List.mem_cons_of_mem c ha))]

theorem splitSlash_ne_nil : ∀ s : Str, splitSlash s ≠ [] := by
  intro s
  cases s with
  | nil => simp [splitSlash]
  | cons c cs =>
    cases hsp : splitSlash cs with
    | nil => simp [splitSlash, hsp]
    | cons w ws =>
      by_cases hc : c = '/' <;> simp [splitSlash, hsp, hc]

theorem splitSlash_cons_slash (cs : Str) :
    splitSlash ('/' :: cs) = [] :: splitSlash cs := by
  cases hsp : splitSlash cs with
  | nil => exact absurd hsp (splitSlash_ne_nil cs)
  | cons w ws => simp [splitSlash, hsp]

theorem splitSlash_cons_ne {c : Char} (hc : c ≠ '/') (cs : Str) :
    ∃ w ws, splitSlash cs = w :: ws ∧
      splitSlash (c :: cs) = (c :: w) :: ws := by
  cases hsp : splitSlash cs with
  | nil => exact absurd hsp (splitSlash_ne_nil cs)
  | cons w ws => exact ⟨w, ws, rfl, by simp [splitSlash, hsp, hc]⟩

theorem splitSlash_no_slash : ∀ s : Str, '/' ∉ s → splitSlash s = [s] := by
  intro s
  induction s with
  | nil => intro _; rfl
  | cons c cs ih =>
    intro h
    have hc : c ≠ '/' := fun hh => h (hh ▸ List.mem_cons_self c cs)
    have hcs : '/' ∉ cs := fun hh => h (List.mem_cons_of_mem c hh)
    simp [splitSlash, ih hcs, hc]

theorem splitSlash_two_le : ∀ s : Str, '/' ∈ s →
    2 ≤ (splitSlash s).length := by
  intro s
  induction s with
  | nil => intro h; cases h
  | cons c cs ih =>
    intro h
    by_cases hc : c = '/'
    · subst hc
      rw [splitSlash_cons_slash]
      cases hsp : splitSlash cs with
      | nil => exact absurd hsp (splitSlash_ne_nil cs)
      | cons w ws => simp
    · have hcs : '/' ∈ cs := by
        rcases List.mem_cons.mp h with h1 | h2
        · exact absurd h1.symm hc
        · exact h2
      obtain ⟨w, ws, hsp, hsp2⟩ := splitSlash_cons_ne hc cs
      have := ih hcs
      rw [hsp] at this
      rw [hsp2]
      simp only [List.length_cons] at this ⊢
      omega

theorem lastSeg_cons_slash (cs : Str) : lastSeg ('/' :: cs) = lastSeg cs := by
  unfold lastSeg
  rw [splitSlash_cons_slash, List.getLastD_cons]

theorem lastSeg_cons_ne {c : Char} (hc : c ≠ '/') {cs : Str}
    (hmem : '/' ∈ cs) : lastSeg (c :: cs) = lastSeg cs := by
  obtain ⟨w, ws, hsp, hsp2⟩ := splitSlash_cons_ne hc cs
  have h2 := splitSlash_two_le cs hmem
  rw [hsp] at h2
  simp only [List.length_cons] at h2
  unfold lastSeg
  rw [hsp, hsp2, List.getLastD_cons, List.getLastD_cons]
  cases ws with
  | nil => simp at h2
  | cons v vs => rw [List.getLastD_cons, List.getLastD_cons]

theorem notSlash_eq_true {a : Char} : notSlash a = true ↔ a ≠ '/' := by
  simp [notSlash]

theorem afterLastSlash_no_slash : ∀ s : Str, '/' ∉ s →
    afterLastSlash s = s := by
  intro s h
  have hall : ∀ a ∈ s.reverse, notSlash a = true := by
    intro a ha
    simp only [List.mem_reverse] at ha
    exact notSlash_eq_true.mpr (fun hh => h (hh ▸ ha))
  simp [afterLastSlash, takeWhile_all s.reverse hall]

theorem takeWhile_stops : ∀ (xs ys : Str), '/' ∈ xs →
    (xs ++ ys).takeWhile notSlash = xs.takeWhile notSlash := by
  intro xs ys h
  rw [List.takeWhile_append]
  rw [if_neg]
  intro hlen
  have heq : xs.takeWhile notSlash = xs :=
    (List.takeWhile_sublist _).eq_of_length hlen
  have hall := List.all_takeWhile (l := xs) (p := notSlash)
  rw [heq, List.all_eq_true] at hall
  exact notSlash_eq_true.mp (hall '/' h) rfl

theorem afterLastSlash_cons_of_mem {c : Char} {cs : Str} (hmem : '/' ∈ cs) :
    afterLastSlash (c :: cs) = afterLastSlash cs := by
  unfold afterLastSlash
  rw [List.reverse_cons, takeWhile_stops cs.reverse [c] (by simpa using hmem)]

theorem lastSeg_eq_afterLastSlash : ∀ s : Str,
    lastSeg s = afterLastSlash s := by
  intro s
  induction s with
  | nil => rfl
  | cons c cs ih =>
    by_cases hmem : '/' ∈ cs
    · rw [afterLastSlash_cons_of_mem hmem, ← ih]
      by_cases hc : c = '/'
      · subst hc; exact lastSeg_cons_slash cs
      · exact lastSeg_cons_ne hc hmem
    · by_cases hc : c = '/'
      · subst hc
        rw [lastSeg_cons_slash, ih, afterLastSlash_no_slash cs hmem]
        unfold afterLastSlash
        rw [List.reverse_cons]
        have hall : ∀ a ∈ cs.reverse, notSlash a = true := by
          intro a ha
          simp only [List.mem_reverse] at ha
          exact notSlash_eq_true.mpr (fun hh => hmem (hh ▸ ha))
        rw [List.takeWhile_append_of_pos hall]
        simp [notSlash]
      · have hno : '/' ∉ c :: cs := by
          intro hh
          rcases List.mem_cons.mp hh with h1 | h2
          · exact hc h1.symm
          · exact hmem h2
        rw [afterLastSlash_no_slash _ hno]
        unfold lastSeg
        rw [splitSlash_no_slash _ hno]
        rfl

theorem foldl_matchBody (catalog : List Entry) :
    ∀ (ts : List Str) (acc : List Entry),
    ts.foldl (fun acc t =>
      let t' := trim t
      if t' = [] then acc
      else
        let exact := catalog.filter (fun f => lower f.FileName == lower t')
        if exact.isEmpty then
          acc ++ catalog.filter
            (fun f => containsSub (lower f.FileName) (lower t'))
        else acc ++ exact) acc
      = acc ++ (cleanNames ts).flatMap (matchOneName catalog) := by
  intro ts
  induction ts with
  | nil => intro acc; simp [cleanNames]
  | cons t ts ih =>
    intro acc
    simp only [List.foldl_cons]
    by_cases h : trim t = []
    · simpa [h, cleanNames, List.filter_cons] using ih acc
    · by_cases h2 : exactMatches catalog (trim t) = []
      · have hsub : matchOneName catalog (trim t)
            = substrMatches catalog (trim t) := by
          simp [matchOneName, h2]
        simp only [h, if_neg h]
        rw [show (catalog.filter
            (fun f => lower f.FileName == lower (trim t))).isEmpty = true by
          simpa [List.isEmpty_eq_true, exactMatches] using h2]
        simp only [if_pos rfl]
        rw [ih]
        simp [cleanNames, List.filter_cons, h, hsub, substrMatches,
          List.flatMap_cons, List.append_assoc]
      · have hex : matchOneName catalog (trim t)
            = exactMatches catalog (trim t) := by
          simp [matchOneName, h2]
        simp only [h, if_neg h]
        rw [show (catalog.filter
            (fun f => lower f.FileName == lower (trim t))).isEmpty = false by
          simpa [List.isEmpty_eq_false, exactMatches] using h2]
        simp only [Bool.false_eq_true, if_false]
        rw [ih]
        simp [cleanNames, List.filter_cons, h, hex, exactMatches,
          List.flatMap_cons, List.append_assoc]

theorem matchB_nil (r : Regex) : Regex.matchB r [] = Regex.nullable r := rfl

theorem prefixB_of_nullable {r : Regex} (h : Regex.nullable r = true)
    (s : Str) : Regex.prefixB r s = true := by
  unfold Regex.prefixB
  rw [List.any_eq_true]
  exact ⟨[], (List.mem_inits _ _).mpr ⟨s, rfl⟩, by rw [matchB_nil, h]⟩

theorem searchB_of_nullable {r : Regex} (h : Regex.nullable r = true)
    (s : Str) : Regex.searchB r s = true := by
  unfold Regex.searchB
  rw [List.any_eq_true]
  exact ⟨s, (List.mem_tails _ _).mpr (List.suffix_refl s),
    prefixB_of_nullable h s⟩

theorem searchB_eq_true_iff (r : Regex) (s : Str) :
    Regex.searchB r s = true ↔ SubstrMatch r s := by
  unfold Regex.searchB Regex.prefixB SubstrMatch
  simp only [List.any_eq_true, List.mem_tails, List.mem_inits]
  constructor
  · rintro ⟨t, ⟨u, hu⟩, v, ⟨w, hw⟩, hm⟩
    exact ⟨u, v, w, by rw [← hu, ← hw, List.append_assoc], hm⟩
  · rintro ⟨u, v, w, hs, hm⟩
    exact ⟨v ++ w, ⟨u, by rw [hs, List.append_assoc]⟩, v, ⟨w, rfl⟩, hm⟩

theorem compileRegex_dotstar :
    compileRegex ['.', '*'] = some (Regex.star Regex.dot) := by decide

theorem search_by_pattern_nullable {p : Str} {r : Regex}
    (hc : compileRegex p = some r) (hn : Regex.nullable r = true)
    (objs : List S3Obj) :
    search_by_pattern (.ok objs) p = .ok (buildCatalog objs) := by
  unfold search_by_pattern
  rw [hc]
  simp only
  unfold buildCatalog
  congr 1
  congr 1
  apply List.filter_congr
  intro o _
  rw [searchB_of_nullable hn o.Key]
  simp

theorem dictInsert_not_mem {m : List (Str × Bytes)} {k : Str} (v : Bytes)
    (h : k ∉ m.map Prod.fst) : dictInsert m k v = m ++ [(k, v)] := by
  unfold dictInsert
  rw [if_neg]
  intro hc
  exact h (List.elem_iff.mp hc)

theorem bulk_aux (fetch : Str → Option Bytes) :
    ∀ (selected : List Entry) (acc : List (Str × Bytes)),
    (∀ e ∈ selected, e.FileName ∉ acc.map Prod.fst) →
    (selected.map Entry.FileName).Nodup →
    selected.foldl (fun acc e =>
      match fetch e.Key with
      | some d => if d.isEmpty then acc else dictInsert acc e.FileName d
      | none => acc) acc
    = acc ++ selected.filterMap
        (fun e => match fetch e.Key with
          | some d => if d.isEmpty then none else some (e.FileName, d)
          | none => none) := by
  intro selected
  induction selected with
  | nil => intro acc _ _; simp
  | cons e es ih =>
    intro acc hacc hnd
    simp only [List.map_cons, List.nodup_cons] at hnd
    simp only [List.foldl_cons]
    cases hf : fetch e.Key with
    | none =>
      rw [ih acc (fun e' he' => hacc e' (List.mem_cons_of_mem _ he')) hnd.2]
      simp [List.filterMap_cons, hf]
    | some d =>
      have hred : (match some d with
          | some d => if d.isEmpty then acc else dictInsert acc e.FileName d
          | none => acc)
          = if d.isEmpty then acc else dictInsert acc e.FileName d := rfl
      rw [hred]
      by_cases hd : d.isEmpty
      · rw [if_pos hd]
        rw [ih acc (fun e' he' => hacc e' (List.mem_cons_of_mem _ he')) hnd.2]
        simp [List.filterMap_cons, hf, List.isEmpty_eq_true.mp hd]
      · have hnotin : e.FileName ∉ acc.map Prod.fst :=
          hacc e (List.mem_cons_self _ _)
        have hde : ¬ d = [] := by simpa [List.isEmpty_eq_true] using hd
        rw [if_neg hd, dictInsert_not_mem d hnotin]
        rw [ih (acc ++ [(e.FileName, d)]) ?_ hnd.2]
        · simp [List.filterMap_cons, hf, hde]
        · intro e' he'
          simp only [List.map_append, List.mem_append, List.map_cons,
            List.map_nil, List.mem_singleton]
          rintro (h1 | h2)
          · exact hacc e' (List.mem_cons_of_mem _ he') h1
          · exact hnd.1 (h2 ▸ List.mem_map_of_mem Entry.FileName he')

theorem formatLoop_spec (n : Nat) :
    formatLoopAux 3 (n : ℚ) 0 = ((n : ℚ) / 1024 ^ sizeIndex n, sizeIndex n) := by
  by_cases h1 : n < 1024
  · have hq1 : ¬ ((1024 : ℚ) ≤ (n : ℚ)) := by
      rw [not_le]
      exact_mod_cast h1
    rw [show formatLoopAux 3 (n : ℚ) 0 = ((n : ℚ), 0) from by
      unfold formatLoopAux; rw [if_neg (fun hc => hq1 hc.1)]]
    rw [sizeIndex, if_pos h1, pow_zero, div_one]
  · have hq1 : (1024 : ℚ) ≤ (n : ℚ) := by
      rw [not_lt] at h1
      exact_mod_cast h1
    rw [show formatLoopAux 3 (n : ℚ) 0 = formatLoopAux 2 ((n : ℚ) / 1024) 1 from by
      unfold formatLoopAux; rw [if_pos ⟨hq1, by norm_num⟩]; rfl]
    by_cases h2 : n < 1024 ^ 2
    · have hq2 : ¬ ((1024 : ℚ) ≤ (n : ℚ) / 1024) := by
        rw [not_le, div_lt_iff₀ (by norm_num : (0:ℚ) < 1024)]
        calc (n : ℚ) < ((1024 ^ 2 : ℕ) : ℚ) := by exact_mod_cast h2
        _ = 1024 * 1024 := by norm_num
      rw [show formatLoopAux 2 ((n : ℚ) / 1024) 1 = ((n : ℚ) / 1024, 1) from by
        unfold formatLoopAux; rw [if_neg (fun hc => hq2 hc.1)]]
      rw [sizeIndex, if_neg h1, if_pos h2, pow_one]
    · have hq2 : (1024 : ℚ) ≤ (n : ℚ) / 1024 := by
        rw [le_div_iff₀ (by norm_num : (0:ℚ) < 1024)]
        rw [not_lt] at h2
        calc (1024 : ℚ) * 1024 = ((1024 ^ 2 : ℕ) : ℚ) := by norm_num
        _ ≤ (n : ℚ) := by exact_mod_cast h2
      rw [show formatLoopAux 2 ((n : ℚ) / 1024) 1
          = formatLoopAux 1 ((n : ℚ) / 1024 / 1024) 2 from by
        unfold formatLoopAux; rw [if_pos ⟨hq2, by norm_num⟩]; rfl]
      by_cases h3 : n < 1024 ^ 3
      · have hq3 : ¬ ((1024 : ℚ) ≤ (n : ℚ) / 1024 / 1024) := by
          rw [not_le, div_div, div_lt_iff₀ (by norm_num : (0:ℚ) < 1024 * 1024)]
          calc (n : ℚ) < ((1024 ^ 3 : ℕ) : ℚ) := by exact_mod_cast h3
          _ = 1024 * (1024 * 1024) := by norm_num
        rw [show formatLoopAux 1 ((n : ℚ) / 1024 / 1024) 2
            = ((n : ℚ) / 1024 / 1024, 2) from by
          unfold formatLoopAux; rw [if_neg (fun hc => hq3 hc.1)]]
        rw [sizeIndex, if_neg h1, if_neg h2, if_pos h3, div_div]
        norm_num
      · have hq3 : (1024 : ℚ) ≤ (n : ℚ) / 1024 / 1024 := by
          rw [div_div, le_div_iff₀ (by norm_num : (0:ℚ) < 1024 * 1024)]
          rw [not_lt] at h3
          calc (1024 : ℚ) * (1024 * 1024) = ((1024 ^ 3 : ℕ) : ℚ) := by norm_num
          _ ≤ (n : ℚ) := by exact_mod_cast h3
        rw [show formatLoopAux 1 ((n : ℚ) / 1024 / 1024) 2
            = ((n : ℚ) / 1024 / 1024 / 1024, 3) from by
          unfold formatLoopAux; rw [if_pos ⟨hq3, by norm_num⟩]
          unfold formatLoopAux; rfl]
        rw [sizeIndex, if_neg h1, if_neg h2, if_neg (by omega : ¬ n < 1024 ^ 3)]
        rw [div_div, div_div]
        norm_num

/-- Claim C1: in name-list mode, every requested name (trimmed, blanks
discarded) contributes exactly its case-insensitive exact `fileName`
matches when any exist — with no substring matching attempted — and
otherwise exactly the catalog entries whose file name contains it as a
case-insensitive substring (possibly none). -/
theorem name_list_matching_exact_precedence :
    ∀ (objs : List S3Obj) (ts : List Str),
    find_specific_pdfs (.ok objs) ts =
      .ok ((cleanNames ts).flatMap (matchOneName (buildCatalog objs)),
        buildCatalog objs) := by
  intro objs ts
  have h := foldl_matchBody (buildCatalog objs) ts []
  rw [List.nil_append] at h
  exact congrArg (fun l => Except.ok (l, buildCatalog objs)) h

/-- Claim C2 counterexample: requesting `"report"` against a catalog whose
only file is `annual_report_2024.pdf` matches that entry by substring
(exact matches are empty), yet the code's unmatched set still contains
`"report"` — so a substring-matched name IS reported as unmatched,
contradicting the claim. -/
theorem unmatched_substring_counterexample :
    find_specific_pdfs (.ok [⟨"annual_report_2024.pdf".data, 0, 0⟩])
        ["report".data]
      = .ok ([⟨"annual_report_2024.pdf".data,
          "annual_report_2024.pdf".data, 0, 0, ['0', 'B']⟩],
        [⟨"annual_report_2024.pdf".data,
          "annual_report_2024.pdf".data, 0, 0, ['0', 'B']⟩]) ∧
    exactMatches [⟨"annual_report_2024.pdf".data,
        "annual_report_2024.pdf".data, 0, 0, ['0', 'B']⟩]
      "report".data = [] ∧
    matchOneName [⟨"annual_report_2024.pdf".data,
        "annual_report_2024.pdf".data, 0, 0, ['0', 'B']⟩]
      "report".data ≠ [] ∧
    lower "report".data ∈ missing_files
      [⟨"annual_report_2024.pdf".data,
        "annual_report_2024.pdf".data, 0, 0, ['0', 'B']⟩]
      ["report".data] := by decide

/-- Claim C2 (amended): the code's `unmatchedRequested` set contains exactly
the lowercased requested names that differ case-insensitively from every
matched entry's file name — a name matched only via substring is therefore
also reported — and requesting `a.pdf, b.pdf` against a catalog holding
only `a.pdf` still yields `{b.pdf}`. -/
theorem unmatched_requested_amended :
    (∀ (objs : List S3Obj) (ts : List Str) (found all : List Entry)
        (x : Str),
      find_specific_pdfs (.ok objs) ts = .ok (found, all) →
      (x ∈ missing_files found ts ↔
        (∃ t ∈ ts, lower t = x) ∧ ∀ e ∈ found, lower e.FileName ≠ x)) ∧
    (find_specific_pdfs (.ok [⟨"a.pdf".data, 0, 0⟩])
        ["a.pdf".data, "b.pdf".data] =
      .ok ([⟨"a.pdf".data, "a.pdf".data, 0, 0, ['0', 'B']⟩],
        [⟨"a.pdf".data, "a.pdf".data, 0, 0, ['0', 'B']⟩]) ∧
      missing_files [⟨"a.pdf".data, "a.pdf".data, 0, 0, ['0', 'B']⟩]
        ["a.pdf".data, "b.pdf".data] = {"b.pdf".data}) := by
  constructor
  · intro objs ts found all x _
    unfold missing_files
    simp only [Finset.mem_sdiff, List.mem_toFinset, List.mem_map]
    constructor
    · rintro ⟨⟨t, ht, rfl⟩, hnf⟩
      refine ⟨⟨t, ht, rfl⟩, ?_⟩
      intro e he heq
      exact hnf ⟨e, he, heq⟩
    · rintro ⟨⟨t, ht, rfl⟩, hnf⟩
      refine ⟨⟨t, ht, rfl⟩, ?_⟩
      rintro ⟨e, he, heq⟩
      exact hnf e he heq
  · constructor
    · decide
    · decide

/-- Claim C2 witness: the amended characterisation applied to the
`a.pdf, b.pdf` example. -/
theorem unmatched_requested_amended_witness :
    lower "b.pdf".data ∈ missing_files
        [⟨"a.pdf".data, "a.pdf".data, 0, 0, ['0', 'B']⟩]
        ["a.pdf".data, "b.pdf".data] ↔
      (∃ t ∈ ["a.pdf".data, "b.pdf".data], lower t = lower "b.pdf".data) ∧
      ∀ e ∈ [(⟨"a.pdf".data, "a.pdf".data, 0, 0, ['0', 'B']⟩ : Entry)],
        lower e.FileName ≠ lower "b.pdf".data :=
  unmatched_requested_amended.1 [⟨"a.pdf".data, 0, 0⟩]
    ["a.pdf".data, "b.pdf".data]
    [⟨"a.pdf".data, "a.pdf".data, 0, 0, ['0', 'B']⟩]
    [⟨"a.pdf".data, "a.pdf".data, 0, 0, ['0', 'B']⟩]
    (lower "b.pdf".data) (by decide)

/-- Claim C3: the Browse-All branch is pattern search with `".*"` (same
call, no separate code path), and pattern search with `".*"` returns
exactly the full catalog, in listing order. -/
theorem browse_all_equals_pattern_catalog :
    (∀ l, browse_all_pdfs l = search_by_pattern l ['.', '*']) ∧
    (∀ objs : List S3Obj,
      search_by_pattern (.ok objs) ['.', '*'] = .ok (buildCatalog objs)) :=
  ⟨fun _ => rfl,
   fun objs => search_by_pattern_nullable compileRegex_dotstar rfl objs⟩

/-- Claim C4: the catalog contains exactly the normalised records of the
listed objects whose lowercased key ends in `.pdf`, every entry's
lowercased key ends in the lowercase suffix, and its file name is the part
of the key after the last slash (the whole key when no slash occurs). -/
theorem catalog_suffix_and_basename :
    ∀ (objs : List S3Obj) (e : Entry),
    (e ∈ buildCatalog objs ↔
      ∃ o ∈ objs, isPdfKey o.Key = true ∧ e = mkEntry o) ∧
    (e ∈ buildCatalog objs →
      pdfSuffix <:+ lower e.Key ∧ e.FileName = afterLastSlash e.Key) := by
  intro objs e
  have hmem : e ∈ buildCatalog objs ↔
      ∃ o ∈ objs, isPdfKey o.Key = true ∧ e = mkEntry o := by
    simp only [buildCatalog, List.mem_map, List.mem_filter]
    constructor
    · rintro ⟨o, ⟨ho, hpdf⟩, rfl⟩
      exact ⟨o, ho, hpdf, rfl⟩
    · rintro ⟨o, ho, hpdf, rfl⟩
      exact ⟨o, ⟨ho, hpdf⟩, rfl⟩
  refine ⟨hmem, fun he => ?_⟩
  obtain ⟨o, _, hpdf, rfl⟩ := hmem.mp he
  constructor
  · exact List.isSuffixOf_iff_suffix.mp (by simpa [isPdfKey] using hpdf)
  · exact lastSeg_eq_afterLastSlash o.Key

/-- Claim C4 witness: the invariant instantiated on a one-object listing
with key `docs/a.PDF`. -/
theorem catalog_suffix_and_basename_witness :
    pdfSuffix <:+ lower (mkEntry ⟨"docs/a.PDF".data, 0, 0⟩).Key ∧
    (mkEntry ⟨"docs/a.PDF".data, 0, 0⟩).FileName =
      afterLastSlash (mkEntry ⟨"docs/a.PDF".data, 0, 0⟩).Key :=
  (catalog_suffix_and_basename [⟨"docs/a.PDF".data, 0, 0⟩]
    (mkEntry ⟨"docs/a.PDF".data, 0, 0⟩)).2 (by decide)

/-- Claim C5: a listing failure is returned to the caller as the single
`listingFailed` condition, aborting the search; a successful search over an
empty catalog returns an `ok` value instead, so the two outcomes are
distinguishable values (no process termination is modelled — the function
is total). -/
theorem listing_failure_is_condition :
    (∀ ts, find_specific_pdfs (.error ()) ts = .error .listingFailed) ∧
    (∀ ts : List Str, find_specific_pdfs (.ok []) ts = .ok ([], [])) ∧
    (∀ ts ts', find_specific_pdfs (.error ()) ts ≠
      find_specific_pdfs (.ok []) ts') := by
  have h1 : ∀ ts, find_specific_pdfs (.error ()) ts = .error .listingFailed :=
    fun _ => rfl
  have h2 : ∀ ts : List Str, find_specific_pdfs (.ok []) ts = .ok ([], []) := by
    intro ts
    have h := foldl_matchBody (buildCatalog []) ts []
    rw [List.nil_append] at h
    have hflat : (cleanNames ts).flatMap (matchOneName (buildCatalog [])) = [] := by
      simp only [List.flatMap_eq_nil_iff]
      intro t _
      simp [matchOneName, exactMatches, substrMatches, buildCatalog]
    rw [hflat] at h
    exact congrArg (fun l => Except.ok (l, buildCatalog [])) h
  refine ⟨h1, h2, fun ts ts' hh => ?_⟩
  rw [h1, h2] at hh
  exact Except.noConfusion hh

/-- Claim C6: pattern search fails with `invalidPattern` exactly when the
pattern does not compile, in which case the result does not depend on the
listing at all (no search is performed and no entry is returned); `"*"` is
such a non-compiling pattern. -/
theorem invalid_pattern_no_search :
    (∀ l p, search_by_pattern l p = .error .invalidPattern ↔
      compileRegex p = none) ∧
    (∀ l l' p, compileRegex p = none →
      search_by_pattern l p = search_by_pattern l' p) ∧
    compileRegex ['*'] = none := by
  refine ⟨?_, ?_, by decide⟩
  · intro l p
    unfold search_by_pattern
    cases hc : compileRegex p with
    | none => simp
    | some r => cases l <;> simp
  · intro l l' p h
    unfold search_by_pattern
    rw [h]

/-- Claim C6 witness: with the invalid pattern `"*"`, the result is the
same whether the listing would succeed or fail. -/
theorem invalid_pattern_no_search_witness :
    search_by_pattern (.ok []) ['*'] = search_by_pattern (.error ()) ['*'] :=
  invalid_pattern_no_search.2.1 (.ok []) (.error ()) ['*'] (by decide)

/-- Claim C7: the archive stores one member per mapping item, named by the
basename of the logical name, with the deflate method, preserving each
item's bytes and the mapping's size; two logical names collapsing to the
same basename simply yield two members (no error — the function is
total). -/
theorem create_zip_basenames_deflate :
    (∀ files : List (Str × Bytes), files ≠ [] →
      ((create_zip_file files).map (fun m => (m.name, m.data)) =
        files.map (fun q => (lastSeg q.1, q.2)) ∧
       (∀ m ∈ create_zip_file files, m.method = 8) ∧
       (create_zip_file files).length = files.length)) ∧
    create_zip_file [(['a', '/', 'x'], [1]), (['b', '/', 'x'], [2])] =
      [⟨['x'], 8, [1]⟩, ⟨['x'], 8, [2]⟩] := by
  constructor
  · intro files _
    refine ⟨?_, ?_, ?_⟩
    · simp [create_zip_file, List.map_map]
    · intro m hm
      simp only [create_zip_file, List.mem_map] at hm
      obtain ⟨q, _, rfl⟩ := hm
      rfl
    · simp [create_zip_file]
  · decide

/-- Claim C7 witness: the round-trip equations on a concrete one-file
mapping whose logical name carries a directory part. -/
theorem create_zip_basenames_deflate_witness :
    (create_zip_file [(['d', '/', 'y'], [7])]).map (fun m => (m.name, m.data)) =
      [(['d', '/', 'y'], [7])].map (fun q => (lastSeg q.1, q.2)) ∧
    (∀ m ∈ create_zip_file [(['d', '/', 'y'], [7])], m.method = 8) ∧
    (create_zip_file [(['d', '/', 'y'], [7])]).length =
      [(['d', '/', 'y'], [7])].length :=
  create_zip_basenames_deflate.1 [(['d', '/', 'y'], [7])] (by decide)

/-- Claim C8 counterexample: two selected entries with distinct keys but the
same basename both download successfully, yet the dictionary keyed by file
name keeps only the later bytes — the archive input is NOT exactly the set
of successful downloads. -/
theorem bulk_zip_duplicate_name_counterexample :
    bulk_zip_downloads [dupSelA, dupSelB] dupFetch =
      [("x.pdf".data, [2])] ∧
    dupFetch dupSelA.Key = some [1] ∧
    dupFetch dupSelB.Key = some [2] ∧
    bulk_zip_downloads [dupSelA, dupSelB] dupFetch ≠
      [dupSelA, dupSelB].filterMap
        (fun e => (dupFetch e.Key).map (fun d => (e.FileName, d))) := by
  decide

/-- Claim C8 (amended): files are fetched sequentially in selection order
and a failed download is skipped rather than aborting the batch, so —
provided the selected file names are pairwise distinct — the archive input
is exactly the downloads that succeeded with non-empty bytes, in selection
order (the truthiness guard also silently skips a zero-byte success; with
colliding file names, a later kept success overwrites an earlier one's
bytes). -/
theorem bulk_zip_skips_failures :
    ∀ (selected : List Entry) (fetch : Str → Option Bytes),
    (selected.map Entry.FileName).Nodup →
    bulk_zip_downloads selected fetch = selected.filterMap
      (fun e => match fetch e.Key with
        | some d => if d.isEmpty then none else some (e.FileName, d)
        | none => none) := by
  intro selected fetch hnd
  unfold bulk_zip_downloads
  rw [bulk_aux fetch selected [] (by simp) hnd]
  simp

/-- Claim C8 witness: with a failure on the second of four distinct-named
selections and a zero-byte success on the third, the archive input is
exactly the first and fourth downloads. -/
theorem bulk_zip_skips_failures_witness :
    bulk_zip_downloads [selEntryA, selEntryB, selEntryD, selEntryC]
        midFailFetch =
      [("a.pdf".data, [5]), ("c.pdf".data, [6])] := by
  rw [bulk_zip_skips_failures [selEntryA, selEntryB, selEntryD, selEntryC]
    midFailFetch (by decide)]
  decide

/-- Claim C9: formatting 0 bytes yields `"0B"`; a positive count is divided
by 1024 once per unit through B, KB, MB, GB — stopping at GB even beyond
1024 GB — and printed with exactly one decimal place, a space and the
unit; in particular 1536 ↦ `"1.5 KB"` and 2^30 ↦ `"1.0 GB"`. -/
theorem format_file_size_units :
    format_file_size 0 = ['0', 'B'] ∧
    format_file_size 1536 = ['1', '.', '5', ' ', 'K', 'B'] ∧
    format_file_size 1073741824 = ['1', '.', '0', ' ', 'G', 'B'] ∧
    format_file_size (1024 ^ 4) =
      ['1', '0', '2', '4', '.', '0', ' ', 'G', 'B'] ∧
    (∀ n : Nat, 0 < n →
      format_file_size n = fmt1 ((n : ℚ) / 1024 ^ sizeIndex n) ++
        (' ' :: sizeNames.getD (sizeIndex n) ['B'])) := by
  refine ⟨rfl, ?_, ?_, ?_, ?_⟩
  · simp [format_file_size, formatLoopAux, fmt1]
    norm_num
    decide
  · simp [format_file_size, formatLoopAux, fmt1]
    norm_num
    decide
  · simp [format_file_size, formatLoopAux, fmt1]
    norm_num
    decide
  · intro n hn
    unfold format_file_size
    rw [if_neg (by omega : ¬ n = 0), formatLoop_spec]

/-- Claim C9 witness: the scaling equation applied at 2048 bytes. -/
theorem format_file_size_units_witness :
    format_file_size 2048 = fmt1 ((2048 : ℚ) / 1024 ^ sizeIndex 2048) ++
      (' ' :: sizeNames.getD (sizeIndex 2048) ['B']) :=
  format_file_size_units.2.2.2.2 2048 (by norm_num)

/-- Claim C10: a compiled pattern admits a catalog entry exactly when it
matches some substring of the full key or of the file name (unanchored,
case-insensitive); the empty pattern hence returns the whole catalog, and
the anchor-free pattern `"report"` finds `annual_report_2024.pdf` by
substring even though it does not match the whole name. -/
theorem pattern_search_unanchored :
    (∀ (p : Str) (r : Regex) (objs : List S3Obj) (entries : List Entry),
      compileRegex p = some r →
      search_by_pattern (.ok objs) p = .ok entries →
      ∀ e, e ∈ entries ↔ ∃ o ∈ objs, isPdfKey o.Key = true ∧ e = mkEntry o ∧
        (SubstrMatch r o.Key ∨ SubstrMatch r (lastSeg o.Key))) ∧
    (∀ objs, search_by_pattern (.ok objs) [] = .ok (buildCatalog objs)) ∧
    (∃ r, compileRegex "report".data = some r ∧
      Regex.searchB r "annual_report_2024.pdf".data = true ∧
      Regex.matchB r "annual_report_2024.pdf".data = false) := by
  refine ⟨?_, ?_, ?_⟩
  · intro p r objs entries hc hs e
    unfold search_by_pattern at hs
    rw [hc] at hs
    simp only [Except.ok.injEq] at hs
    subst hs
    simp only [List.mem_map, List.mem_filter, Bool.and_eq_true,
      Bool.or_eq_true, searchB_eq_true_iff]
    constructor
    · rintro ⟨o, ⟨ho, hpdf, hm⟩, rfl⟩
      exact ⟨o, ho, hpdf, rfl, hm⟩
    · rintro ⟨o, ho, hpdf, rfl, hm⟩
      exact ⟨o, ⟨ho, hpdf, hm⟩, rfl⟩
  · intro objs
    exact search_by_pattern_nullable (p := []) rfl rfl objs
  · refine ⟨_, rfl, ?_, ?_⟩ <;> decide

/-- Claim C10 witness: the membership characterisation applied to the
single-character pattern `"r"` over a one-object listing. -/
theorem pattern_search_unanchored_witness :
    mkEntry ⟨"report.pdf".data, 0, 0⟩ ∈ [mkEntry ⟨"report.pdf".data, 0, 0⟩] ↔
      ∃ o ∈ [(⟨"report.pdf".data, 0, 0⟩ : S3Obj)], isPdfKey o.Key = true ∧
        mkEntry ⟨"report.pdf".data, 0, 0⟩ = mkEntry o ∧
        (SubstrMatch (Regex.chr 'r') o.Key ∨
         SubstrMatch (Regex.chr 'r') (lastSeg o.Key)) :=
  pattern_search_unanchored.1 ['r'] (Regex.chr 'r')
    [⟨"report.pdf".data, 0, 0⟩] [mkEntry ⟨"report.pdf".data, 0, 0⟩]
    (by decide) (by decide) (mkEntry ⟨"report.pdf".data, 0, 0⟩)
